import Mathlib

/-!
# Verification of the object-resolver path accessor

Shallow embedding of the repository dimik/object-manager.  The primary
subject is src/lib/object-resolver.js (the most evolved variant, cited by
the claims); the rebind operation comes from src/index.js.

Modelling scope, stated once here and referred to below:

* JavaScript values are modelled as finite trees (no aliasing, no cycles),
  with mappings and sequences as the composites.  Sequences carry both an
  indexed part and (as real JS arrays allow) extra non-index string
  properties.
* Property access models own data properties of plain objects, arrays and
  strings (including faithful reads of the length of arrays and strings);
  prototype-inherited properties (toString, hasOwnProperty, ...) are out of
  scope.  Assignment to the magic length property of an array is modelled
  faithfully where the program can actually perform it -- the final
  assignment of update, where it resizes the array or throws RangeError
  (see jsSetChecked / lenValue); the traversal loop itself can never
  assign a length (its assignment is guarded by the key reading as
  undefined, and an array's length never does).
* JavaScript numbers are modelled over Int; the only numeric parsing the
  source performs on path segments (the isNaN container heuristic and
  array index canonicalisation) is modelled explicitly below.
* Sloppy-mode assignment to a primitive (for example (5).b = 1) is a
  silent no-op, exactly as in the source's runtime.
-/

mutual

/-- A JavaScript value: undefined, null, boolean, number, string,
array (indexed part plus extra string properties) or plain object. -/
inductive JSVal : Type where
  | undefV : JSVal
  | null : JSVal
  | boolV : Bool → JSVal
  | numV : Int → JSVal
  | strV : String → JSVal
  | arrV : JSList → JSFields → JSVal
  | objV : JSFields → JSVal

/-- The indexed elements of an array. -/
inductive JSList : Type where
  | nil : JSList
  | cons : JSVal → JSList → JSList

/-- Own string-keyed data properties, in insertion order. -/
inductive JSFields : Type where
  | fnil : JSFields
  | fcons : String → JSVal → JSFields → JSFields

end

/-- Build a field list from a Lean list literal. -/
def jf : List (String × JSVal) → JSFields
  | [] => .fnil
  | (k, v) :: t => .fcons k v (jf t)

/-- Build an element list from a Lean list literal. -/
def jl : List JSVal → JSList
  | [] => .nil
  | v :: t => .cons v (jl t)

/-- Is this value the undefined value? -/
def isUndef : JSVal → Bool
  | .undefV => true
  | _ => false

/-- Loose equality with null (null == x holds exactly for null and undefined);
this is the guard the resolver loop uses. -/
def looseNull : JSVal → Bool
  | .undefV => true
  | .null => true
  | _ => false

/-- Is the value a composite (mapping or sequence)? -/
def isComposite : JSVal → Bool
  | .arrV _ _ => true
  | .objV _ => true
  | _ => false

/-- Is the value a sequence (array)? -/
def isArrK : JSVal → Bool
  | .arrV _ _ => true
  | _ => false

/-- The JavaScript typeof string of a value (typeof null is "object"). -/
def jsTypeName : JSVal → String
  | .undefV => "undefined"
  | .null => "object"
  | .boolV _ => "boolean"
  | .numV _ => "number"
  | .strV _ => "string"
  | .arrV _ _ => "object"
  | .objV _ => "object"

/-- The type word used in the source's error messages:
null === obj && 'null' || typeof obj. -/
def errTypeName : JSVal → String
  | .null => "null"
  | v => jsTypeName v

/-- JavaScript truthiness. -/
def jsTruthy : JSVal → Bool
  | .undefV => false
  | .null => false
  | .boolV b => b
  | .numV n => n != 0
  | .strV s => s ≠ ""
  | .arrV _ _ => true
  | .objV _ => true

/-- First own field with the given key. -/
def getF : JSFields → String → Option JSVal
  | .fnil, _ => none
  | .fcons k v t, q => if k = q then some v else getF t q

/-- Assign a field: overwrite the first occurrence in place, else append. -/
def setF : JSFields → String → JSVal → JSFields
  | .fnil, q, w => .fcons q w .fnil
  | .fcons k v t, q, w => if k = q then .fcons k w t else .fcons k v (setF t q w)

/-- Number of indexed elements. -/
def jlen : JSList → Nat
  | .nil => 0
  | .cons _ t => jlen t + 1

/-- Read an indexed element. -/
def getIdx : JSList → Nat → Option JSVal
  | .nil, _ => none
  | .cons v _, 0 => some v
  | .cons _ t, i + 1 => getIdx t i

/-- Write an indexed element, padding with holes (undefined) as JS arrays do
when an index beyond the current length is assigned. -/
def padSet : JSList → Nat → JSVal → JSList
  | .cons _ t, 0, w => .cons w t
  | .cons v t, i + 1, w => .cons v (padSet t i w)
  | .nil, 0, w => .cons w .nil
  | .nil, i + 1, w => .cons .undefV (padSet .nil i w)

/-- Digit test for canonical array indexes. -/
def isDig (c : Char) : Bool := '0' ≤ c && c ≤ '9'

/-- Decimal digits to a natural number. -/
def digitsToNat (cs : List Char) : Nat :=
  cs.foldl (fun a c => a * 10 + (c.toNat - '0'.toNat)) 0

/-- A canonical array index: a string of digits with no leading zero
(except "0" itself) whose value is below 2^32 - 1; this is the class of
keys a JS array treats as indexes rather than plain properties. -/
def toIndex (s : String) : Option Nat :=
  let cs := s.data
  if cs ≠ [] ∧ cs.all isDig ∧ (cs.head? = some '0' → cs = ['0']) ∧
      digitsToNat cs < 4294967295 then
    some (digitsToNat cs)
  else none

/-- Own-property read obj[key]: objects and array extra properties by key,
arrays and strings by canonical index, length of arrays and strings;
every key of a primitive reads as undefined. -/
def jsGet : JSVal → String → JSVal
  | .objV fs, q => (getF fs q).getD .undefV
  | .arrV es ps, q =>
    match toIndex q with
    | some i => (getIdx es i).getD .undefV
    | none => if q = "length" then .numV (jlen es) else (getF ps q).getD .undefV
  | .strV s, q =>
    match toIndex q with
    | some i => ((s.data.get? i).map (fun c => JSVal.strV (String.mk [c]))).getD .undefV
    | none => if q = "length" then .numV s.data.length else .undefV
  | _, _ => .undefV

/-- The raw own-property assignment obj[key] = v as the traversal loop
uses it.  Writing to a primitive (or to null/undefined, which the callers
guard) is a sloppy-mode no-op.  The array length case is an identity
here, which is faithful for every write the walk can issue: the upsert
branch assigns only keys that read as undefined (an array's length never
does), and the pure rebuilding write-back of the walk re-assigns a
traversed length its own current value, which real JS accepts unchanged.
The one place the program can really assign an array's length -- the
final assignment of update -- goes through jsSetChecked instead, which
models the resize and the RangeError. -/
def jsSet : JSVal → String → JSVal → JSVal
  | .objV fs, q, w => .objV (setF fs q w)
  | .arrV es ps, q, w =>
    match toIndex q with
    | some i => .arrV (padSet es i w) ps
    | none => if q = "length" then .arrV es ps else .arrV es (setF ps q w)
  | o, _, _ => o

/-! ## Path splitting and the numeric-string heuristic -/

/-- Split a list of characters on a delimiter character. -/
def splitChars (d : Char) : List Char → List (List Char)
  | [] => [[]]
  | c :: t =>
    let r := splitChars d t
    if c = d then [] :: r
    else
      match r with
      | [] => [[c]]
      | h :: rt => (c :: h) :: rt

/-- query.split(delim) for the single-character default delimiter. -/
def jsSplit (q : String) (d : Char) : List String :=
  (splitChars d q.data).map String.mk

/-- The path list built by find/update:
query && query.split(this.delim) || [] with the default delimiter. -/
def splitQuery (q : String) : List String :=
  if q = "" then [] else jsSplit q '.'

/-- JS whitespace accepted by Number coercion (the common subset). -/
def jsWhite (c : Char) : Bool :=
  c = ' ' || c = '\t' || c = '\n' || c = '\r' || c = '\x0b' || c = '\x0c'

/-- Trim JS whitespace from both ends. -/
def jsTrim (cs : List Char) : List Char :=
  ((cs.dropWhile jsWhite).reverse.dropWhile jsWhite).reverse

/-- Hexadecimal digit test. -/
def isHexDig (c : Char) : Bool :=
  isDig c || ('a' ≤ c && c ≤ 'f') || ('A' ≤ c && c ≤ 'F')

/-- An optional exponent part: empty, or (e|E) with optional sign and digits. -/
def expOk : List Char → Bool
  | [] => true
  | c :: t =>
    if c = 'e' ∨ c = 'E' then
      let t' := match t with
        | s :: tt => if s = '+' ∨ s = '-' then tt else t
        | [] => []
      t' ≠ [] ∧ t'.all isDig
    else false

/-- A decimal number body: digits, optional fraction, optional exponent. -/
def decBody (cs : List Char) : Bool :=
  let sp := cs.span isDig
  match sp.2 with
  | '.' :: t =>
    let fp := t.span isDig
    (sp.1 ≠ [] ∨ fp.1 ≠ []) ∧ expOk fp.2
  | r => sp.1 ≠ [] ∧ expOk r

/-- A radix literal 0x../0o../0b.. (unsigned only, as in JS). -/
def radixBody : List Char → Bool
  | '0' :: x :: t =>
    ((x = 'x' ∨ x = 'X') ∧ t ≠ [] ∧ t.all isHexDig) ||
    ((x = 'o' ∨ x = 'O') ∧ t ≠ [] ∧ t.all (fun c => '0' ≤ c && c ≤ '7')) ||
    ((x = 'b' ∨ x = 'B') ∧ t ≠ [] ∧ t.all (fun c => c = '0' ∨ c = '1'))
  | _ => false

/-- Does Number(s) produce a non-NaN value for a string s?
The empty (or all-whitespace) string coerces to 0, hence is a number. -/
def coercesToNumber (s : String) : Bool :=
  let cs := jsTrim s.data
  match cs with
  | [] => true
  | '+' :: t => t = "Infinity".data ∨ decBody t
  | '-' :: t => t = "Infinity".data ∨ decBody t
  | _ => cs = "Infinity".data ∨ decBody cs ∨ radixBody cs

/-- isNaN(seg) for an optional path segment; isNaN(undefined) is true.
This is the container-choice heuristic of the upsert branch. -/
def segIsNaN : Option String → Bool
  | none => true
  | some s => ! coercesToNumber s

/-! ## The shared resolver walk (src/lib/object-resolver.js, resolver) -/

/-- Kind of a TypeError raised by the accessor: a getter error from the
walk (GETTER_ERROR) or a setter error from the final assignment
(SETTER_ERROR). -/
inductive EKind : Type where
  | getterK : EKind
  | setterK : EKind
  | rangeK : EKind

/-- A structured runtime error: its kind (getter TypeError, setter
TypeError, or the RangeError an invalid array-length assignment throws),
the property name it cites (none models an undefined lastKey, printed as
'undefined'), and the type word. -/
structure TErr : Type where
  kind : EKind
  key : Option String
  ty : String

/-- String(err) for a modelled error, matching the source's
GETTER_ERROR / SETTER_ERROR message formats and the RangeError message of
an invalid array-length assignment. -/
def errToString (e : TErr) : String :=
  match e.kind with
  | .rangeK => "RangeError: Invalid array length"
  | .getterK =>
    "TypeError: Cannot read property '" ++ e.key.getD "undefined" ++
      "' of " ++ e.ty
  | .setterK =>
    "TypeError: Cannot set property '" ++ e.key.getD "undefined" ++
      "' of " ++ e.ty

/-- Result of the resolver walk: a getter TypeError, an early break on
undefined (the sync path then returns undefined), or a completed walk
whose bottom action produced b. -/
inductive RRes (β : Type) : Type where
  | rerr : TErr → RRes β
  | rbrk : RRes β
  | rdone : β → RRes β

/-- The container created by the upsert branch:
obj[key] = isNaN(path[i + 1]) && empty-object || empty-array. -/
def mkCont (next : Option String) : JSVal :=
  if segIsNaN next then .objV .fnil else .arrV .nil .fnil

/-- The resolver loop of src/lib/object-resolver.js.  It walks steps
segments of rest (rest keeps the untraversed tail so the upsert branch can
peek at path[i + 1]); upsert inserts a fresh container when the key is
absent.  The JS loop mutates the tree in place and finally returns a
reference to the node it stopped at; here the rebuilt tree is returned
together with the outcome, and fin is the caller's action on that final
reference (the identity for find, the final assignment for update), whose
write lands at the stopped position exactly as a write through the JS
reference would. -/
def resolverGo {β : Type} (obj : JSVal) (rest : List String) (steps : Nat)
    (upsert : Bool) (fin : JSVal → JSVal × β) : JSVal × RRes β :=
  match steps, rest with
  | 0, _ => ((fin obj).1, .rdone (fin obj).2)
  | _ + 1, [] => ((fin obj).1, .rdone (fin obj).2)
  | s + 1, k :: rest' =>
    if looseNull obj then
      (obj, .rerr ⟨.getterK, some k, errTypeName obj⟩)
    else
      let obj1 := if isUndef (jsGet obj k) && upsert then
          jsSet obj k (mkCont rest'.head?) else obj
      let child := jsGet obj1 k
      if isUndef child then (obj1, .rbrk)
      else
        let r := resolverGo child rest' s upsert fin
        (jsSet obj1 k r.1, r.2)

/-- The identity bottom action used by find (no mutation at the target). -/
def pureFin (v : JSVal) : JSVal × JSVal := (v, v)

/-! ## find (getter) -/

/-- Synchronous find on a segment list: the walk runs over the full path
with upsert off; a getter TypeError is thrown (modelled as Except.error),
otherwise the resolved value (undefined after an early break) is
returned. -/
def findPath (ctx : JSVal) (path : List String) : Except TErr JSVal :=
  match resolverGo ctx path path.length false pureFin with
  | (_, .rerr e) => .error e
  | (_, .rbrk) => .ok .undefV
  | (_, .rdone v) => .ok v

/-- The root context as it stands after a find call (find shares the
upsert-capable walk, so this is what the frame property is about). -/
def findRoot (ctx : JSVal) (path : List String) : JSVal :=
  (resolverGo ctx path path.length false pureFin).1

/-- find on a query string (the source splits on the default delimiter). -/
def findQ (ctx : JSVal) (q : String) : Except TErr JSVal :=
  findPath ctx (splitQuery q)

/-- The pair (err, value) a find callback receives: err && String(err) and
!err && obj; delivery is deferred to next tick but the walk itself has
already run synchronously. -/
def findCbArgs (ctx : JSVal) (path : List String) : Option String × JSVal :=
  match resolverGo ctx path path.length false pureFin with
  | (_, .rerr e) => (some (errToString e), .boolV false)
  | (_, .rbrk) => (none, .undefV)
  | (_, .rdone v) => (none, v)

/-! ## update (setter) -/

/-- Is the final key truthy (set checks null != obj && key)? An absent
lastKey (empty path) and the empty-string key are both falsy. -/
def keyTruthy : Option String → Bool
  | none => false
  | some s => s ≠ ""

/-- Resize the indexed elements to the given length: truncate, or extend
with holes (undefined), exactly as assigning a valid new array length
does. -/
def resizeTo : JSList → Nat → JSList
  | _, 0 => .nil
  | .nil, n + 1 => .cons .undefV (resizeTo .nil n)
  | .cons v t, n + 1 => .cons v (resizeTo t n)

/-- The numeric value a string contributes as a new array length, for the
modelled subset of ToNumber: an empty or all-whitespace string coerces to
0, a plain decimal digit string to its value (when below 2^32); every
other string is treated as not a valid length.  Exotic numeric formats
(sign, fraction, exponent, hex) are outside this modelled subset. -/
def strLenValue (s : String) : Option Nat :=
  let cs := jsTrim s.data
  if cs = [] then some 0
  else if cs.all isDig ∧ digitsToNat cs < 4294967296 then
    some (digitsToNat cs)
  else none

/-- The new length an assigned value denotes, when it is a valid one:
assigning length requires ToUint32(value) to equal ToNumber(value), else
the assignment throws RangeError (Invalid array length).  Numbers,
booleans, null and undefined are modelled exactly; strings on the subset
of strLenValue; composite values (whose ToPrimitive coercion is outside
the model, for example a plain object giving NaN) as invalid. -/
def lenValue : JSVal → Option Nat
  | .numV n => if 0 ≤ n ∧ n < 4294967296 then some n.toNat else none
  | .boolV b => some (cond b 1 0)
  | .null => some 0
  | .strV s => strLenValue s
  | _ => none

/-- The checked own-property assignment used for update's final
assignment, the one assignment the program performs whose evaluation can
itself throw: assigning an array's length resizes it for a valid new
length and throws RangeError (modelled as none) otherwise; every other
assignment behaves as jsSet and cannot throw. -/
def jsSetChecked (o : JSVal) (q : String) (w : JSVal) : Option JSVal :=
  match o with
  | .arrV es ps =>
    if q = "length" then (lenValue w).map (fun n => JSVal.arrV (resizeTo es n) ps)
    else some (jsSet o q w)
  | _ => some (jsSet o q w)

/-- Outcome of the set helper of update: the assignment evaluated (with
the updated parent), set returned its SETTER_ERROR TypeError (null parent
or falsy key), or the assignment expression itself threw (invalid array
length). -/
inductive SetRes : Type where
  | sval : JSVal → SetRes
  | sterr : TErr → SetRes
  | sraise : TErr → SetRes

/-- The set helper: null != obj && key guards the assignment, otherwise
the TypeError is returned; the assignment itself is the checked one and
can throw the RangeError. -/
def setOp (parent : JSVal) (lk : Option String) (v : JSVal) : SetRes :=
  if !looseNull parent && keyTruthy lk then
    match jsSetChecked parent (lk.getD "") v with
    | some p' => .sval p'
    | none => .sraise ⟨.rangeK, lk, "Invalid array length"⟩
  else .sterr ⟨.setterK, lk, errTypeName parent⟩

/-- The bottom action of update: run the set helper through the reference
returned by the walk; a failed or throwing assignment leaves the parent
unchanged. -/
def updFin (lk : Option String) (v : JSVal) (parent : JSVal) :
    JSVal × SetRes :=
  match setOp parent lk v with
  | .sval p' => (p', .sval p')
  | .sterr e => (parent, .sterr e)
  | .sraise e => (parent, .sraise e)

/-- Synchronous update on a segment list (upsert defaults to true): the
walk covers all but the last segment; a getter error, a failed final
assignment (thrown as the returned TypeError) or a throwing final
assignment (the RangeError propagates directly) is raised, otherwise the
mutated root is the result (the JS method returns this for chaining; the
observable root is this.ctx). -/
def updatePath (ctx : JSVal) (path : List String) (v : JSVal)
    (upsert : Bool := true) : Except TErr JSVal :=
  match resolverGo ctx path (path.length - 1) upsert
      (updFin (path.get? (path.length - 1)) v) with
  | (_, .rerr e) => .error e
  | (_, .rbrk) => .error ⟨.setterK, path.get? (path.length - 1), "undefined"⟩
  | (ctx', .rdone (.sval _)) => .ok ctx'
  | (_, .rdone (.sterr e)) => .error e
  | (_, .rdone (.sraise e)) => .error e

/-- update on a query string. -/
def updateQ (ctx : JSVal) (q : String) (v : JSVal) (upsert : Bool := true) :
    Except TErr JSVal :=
  updatePath ctx (splitQuery q) v upsert

/-- The root as the caller sees it the moment update-with-callback
returns: the resolver walk (with its upsert insertions) has run
synchronously, but the final assignment is performed inside the deferred
callback and has not happened yet. -/
def updateCbPhase1 (ctx : JSVal) (path : List String) (upsert : Bool) :
    JSVal :=
  (resolverGo ctx path (path.length - 1) upsert pureFin).1

/-- What the deferred tick of update-with-callback does: either the user
callback is invoked with its (err, obj) pair, or the tick itself throws
(an uncaught asynchronous exception) and the callback is never called. -/
inductive CbOut : Type where
  | called : Option String → JSVal → CbOut
  | uncaught : TErr → CbOut

/-- The deferred outcome of update-with-callback, built directly from the
source's callback path: the walk has run synchronously; inside the
deferred callback a getter error arrives as its String(err) with the
second argument false (set is skipped), a break leaves set to fail on the
undefined parent, set's returned TypeError becomes the callback's error
string, a throwing assignment (invalid array length) escapes the tick
uncaught so the callback never runs, and on success the callback receives
null and the fully mutated root. -/
def updateCbOutcome (ctx : JSVal) (path : List String) (v : JSVal)
    (upsert : Bool) : CbOut :=
  match resolverGo ctx path (path.length - 1) upsert
      (updFin (path.get? (path.length - 1)) v) with
  | (_, .rerr e) => .called (some (errToString e)) (.boolV false)
  | (_, .rbrk) =>
    .called (some (errToString
      ⟨.setterK, path.get? (path.length - 1), "undefined"⟩)) (.boolV false)
  | (ctx', .rdone (.sval _)) => .called none ctx'
  | (_, .rdone (.sterr e)) => .called (some (errToString e)) (.boolV false)
  | (_, .rdone (.sraise e)) => .uncaught e

/-! ## copy (JSON round trip) -/

mutual

/-- Semantic model of JSON.parse(JSON.stringify(v)) on tree values: holes
and undefined array elements serialize as null, extra non-index array
properties are not serialized, and object fields whose value is undefined
are dropped; everything else survives structurally. -/
def jsonRT : JSVal → JSVal
  | .undefV => .null
  | .null => .null
  | .boolV b => .boolV b
  | .numV n => .numV n
  | .strV s => .strV s
  | .arrV es _ => .arrV (jsonRTL es) .fnil
  | .objV fs => .objV (jsonRTF fs)

/-- jsonRT on array elements. -/
def jsonRTL : JSList → JSList
  | .nil => .nil
  | .cons v t => .cons (jsonRT v) (jsonRTL t)

/-- jsonRT on object fields (undefined-valued fields are dropped). -/
def jsonRTF : JSFields → JSFields
  | .fnil => .fnil
  | .fcons k v t =>
    if isUndef v then jsonRTF t else .fcons k (jsonRT v) (jsonRTF t)

end

mutual

/-- Is the value JSON-clean, i.e. left exactly in place by a
stringify/parse round trip: no undefined anywhere and no extra non-index
array properties. -/
def jsonSafe : JSVal → Bool
  | .undefV => false
  | .null => true
  | .boolV _ => true
  | .numV _ => true
  | .strV _ => true
  | .arrV es ps => (match ps with | .fnil => true | _ => false) && jsonSafeL es
  | .objV fs => jsonSafeF fs

/-- jsonSafe on array elements. -/
def jsonSafeL : JSList → Bool
  | .nil => true
  | .cons v t => jsonSafe v && jsonSafeL t

/-- jsonSafe on object fields. -/
def jsonSafeF : JSFields → Bool
  | .fnil => true
  | .fcons _ v t => jsonSafe v && jsonSafeF t

end

/-- The copy method: find the value, and when its typeof is "object"
(which includes null and arrays) return the JSON round trip of it,
otherwise the boolean false.  A getter TypeError from find propagates. -/
def copyPath (ctx : JSVal) (path : List String) : Except TErr JSVal :=
  (findPath ctx path).map
    (fun r => if jsTypeName r = "object" then jsonRT r else .boolV false)

/-- copy on a query string. -/
def copyQ (ctx : JSVal) (q : String) : Except TErr JSVal :=
  copyPath ctx (splitQuery q)

/-! ## mixin (shallow merge) -/

/-- The extend helper of mixin: for (prop in o2) copy each own property of
o2 onto o1, in order. -/
def extendF (o1 : JSFields) : JSFields → JSFields
  | .fnil => o1
  | .fcons k v t => extendF (setF o1 k v) t

/-- The own enumerable fields a for-in loop sees on a value: an object's
fields; an array's non-hole indexed elements followed by its extra
properties; a string's characters by index; nothing on primitives. -/
def idxFields (i : Nat) : JSList → JSFields
  | .nil => .fnil
  | .cons v t =>
    if isUndef v then idxFields (i + 1) t
    else .fcons (toString i) v (idxFields (i + 1) t)

/-- Characters of a string as indexed fields. -/
def charFields (i : Nat) : List Char → JSFields
  | [] => .fnil
  | c :: t => .fcons (toString i) (.strV (String.mk [c])) (charFields (i + 1) t)

/-- Concatenate two field lists. -/
def fappend : JSFields → JSFields → JSFields
  | .fnil, r => r
  | .fcons k v t, r => .fcons k v (fappend t r)

/-- Own enumerable fields of a value (see idxFields). -/
def ownFields : JSVal → JSFields
  | .objV fs => fs
  | .arrV es ps => fappend (idxFields 0 es) ps
  | .strV s => charFields 0 s.data
  | _ => .fnil

/-- The mixin method: resolve the query, fold extend over the extra
argument objects starting from a fresh empty object, then extend with the
resolved value last so its properties take precedence. -/
def mixinPath (ctx : JSVal) (path : List String) (extras : List JSFields) :
    Except TErr JSFields :=
  (findPath ctx path).map
    (fun r => extendF (extras.foldl extendF .fnil) (ownFields r))

/-- mixin on a query string. -/
def mixinQ (ctx : JSVal) (q : String) (extras : List JSFields) :
    Except TErr JSFields :=
  mixinPath ctx (splitQuery q) extras

/-! ## Construction and rebinding of the root context -/

/-- The root bound by the ObjectResolver constructor of
src/lib/object-resolver.js: a string first argument is shifted into the
delimiter slot (the root becomes a fresh empty object), and otherwise
this.ctx = ctx || an empty object; none models calling with no
argument. -/
def ctorCtx : Option JSVal → JSVal
  | none => .objV .fnil
  | some c =>
    if jsTypeName c = "string" then .objV .fnil
    else if jsTruthy c then c else .objV .fnil

/-- The root bound by the resolve rebinding method of src/index.js:
this.ctx = ctx || an empty object. -/
def rebindCtx : Option JSVal → JSVal
  | none => .objV .fnil
  | some c => if jsTruthy c then c else .objV .fnil

/-! ## Predicates used by the theorems -/

/-- Every segment is a non-empty string and none is the array-special key
length (a conservative exclusion, see the header note). -/
def segsOk (path : List String) : Bool :=
  path.all (fun s => s ≠ "" && s ≠ "length")

/-- All pre-existing values the write walk passes through are composites;
keys may be absent (upsert will create the rest of the chain). -/
def walkComposite : JSVal → List String → Bool
  | _, [] => true
  | obj, [_k] => isComposite obj
  | obj, k :: k2 :: rest =>
    isComposite obj &&
      (if isUndef (jsGet obj k) then true
       else walkComposite (jsGet obj k) (k2 :: rest))

/-- The decidable situation in which a read's target is absent while the
walk only meets composites: at some depth an existing composite lacks the
next key (everything before it being composite as well). -/
def stopsAbsent : JSVal → List String → Bool
  | _, [] => false
  | obj, k :: rest =>
    isComposite obj &&
      (if isUndef (jsGet obj k) then true else stopsAbsent (jsGet obj k) rest)

/-- Keys are pairwise distinct (a real JS object cannot repeat a key). -/
def nodupKeys : JSFields → Bool
  | .fnil => true
  | .fcons k _ t => !(getF t k).isSome && nodupKeys t

/-- The value the merged extras contribute for a key: the rightmost extra
containing the key wins. -/
def lookupExtras : List JSFields → String → Option JSVal
  | [], _ => none
  | ex :: rest, q => (lookupExtras rest q).or (getF ex q)

/-! ## Basic lemmas about fields, indexes and property access -/

theorem getF_setF_self : ∀ (l : JSFields) (q : String) (v : JSVal),
    getF l q = some v → setF l q v = l
  | .fnil, q, v, h => by simp [getF] at h
  | .fcons k w t, q, v, h => by
    by_cases hk : k = q
    · subst hk
      simp [getF] at h
      simp [setF, h]
    · simp [getF, hk] at h
      simp [setF, hk, getF_setF_self t q v h]

theorem getF_setF : ∀ (l : JSFields) (q : String) (w : JSVal),
    getF (setF l q w) q = some w
  | .fnil, q, w => by simp [setF, getF]
  | .fcons k v t, q, w => by
    by_cases hk : k = q
    · subst hk; simp [setF, getF]
    · simp [setF, getF, hk, getF_setF t q w]

theorem getF_setF_ne : ∀ (l : JSFields) (q q' : String) (w : JSVal),
    q ≠ q' → getF (setF l q w) q' = getF l q'
  | .fnil, q, q', w, h => by
    simp [setF, getF, h]
  | .fcons k v t, q, q', w, h => by
    by_cases hk : k = q
    · subst hk
      simp [setF, getF, h]
    · simp [setF, getF, hk, getF_setF_ne t q q' w h]

theorem getIdx_padSet : ∀ (es : JSList) (i : Nat) (w : JSVal),
    getIdx (padSet es i w) i = some w
  | .nil, 0, w => by simp [padSet, getIdx]
  | .nil, i + 1, w => by simp [padSet, getIdx, getIdx_padSet .nil i w]
  | .cons a t, 0, w => by simp [padSet, getIdx]
  | .cons a t, i + 1, w => by simp [padSet, getIdx, getIdx_padSet t i w]

theorem padSet_getIdx_self : ∀ (es : JSList) (i : Nat) (v : JSVal),
    getIdx es i = some v → padSet es i v = es
  | .nil, 0, v, h => by simp [getIdx] at h
  | .nil, i + 1, v, h => by simp [getIdx] at h
  | .cons a t, 0, v, h => by
    simp [getIdx] at h; simp [padSet, h]
  | .cons a t, i + 1, v, h => by
    simp [getIdx] at h; simp [padSet, padSet_getIdx_self t i v h]

/-- Re-assigning the value a key already holds leaves the value unchanged
(the key is present because reading it did not give undefined). -/
theorem jsSet_jsGet_self (o : JSVal) (q : String)
    (h : isUndef (jsGet o q) = false) : jsSet o q (jsGet o q) = o := by
  cases o with
  | objV fs =>
    simp only [jsGet] at h ⊢
    cases hg : getF fs q with
    | none => simp [hg, Option.getD, isUndef] at h
    | some v => simp [hg, jsSet, getF_setF_self fs q v hg]
  | arrV es ps =>
    simp only [jsGet] at h ⊢
    cases hi : toIndex q with
    | some i =>
      simp only [hi] at h ⊢
      cases hg : getIdx es i with
      | none => simp [hg, Option.getD, isUndef] at h
      | some v => simp [hg, jsSet, hi, padSet_getIdx_self es i v hg]
    | none =>
      by_cases hl : q = "length"
      · subst hl; simp [jsSet, hi]
      · simp only [hi, hl, if_neg hl] at h
        cases hg : getF ps q with
        | none => simp [hg, Option.getD, isUndef] at h
        | some v =>
          simp [hg, jsSet, hi, hl, getF_setF_self ps q v hg]
  | undefV => simp [jsSet]
  | null => simp [jsSet]
  | boolV b => simp [jsSet]
  | numV n => simp [jsSet]
  | strV s => simp [jsSet]

/-- Reading back a freshly assigned key of a composite (length of an
array excepted) gives the assigned value. -/
theorem jsGet_jsSet (o : JSVal) (q : String) (w : JSVal)
    (hc : isComposite o = true) (hl : isArrK o = true → q ≠ "length") :
    jsGet (jsSet o q w) q = w := by
  cases o with
  | objV fs => simp [jsSet, jsGet, getF_setF]
  | arrV es ps =>
    cases hi : toIndex q with
    | some i => simp [jsSet, jsGet, hi, getIdx_padSet]
    | none =>
      have hql : q ≠ "length" := hl rfl
      simp [jsSet, jsGet, hi, hql, getF_setF]
  | undefV => simp [isComposite] at hc
  | null => simp [isComposite] at hc
  | boolV b => simp [isComposite] at hc
  | numV n => simp [isComposite] at hc
  | strV s => simp [isComposite] at hc

/-- Assignment preserves compositeness. -/
theorem isComposite_jsSet (o : JSVal) (q : String) (w : JSVal)
    (hc : isComposite o = true) : isComposite (jsSet o q w) = true := by
  cases o with
  | objV fs => simp [jsSet, isComposite]
  | arrV es ps =>
    cases hi : toIndex q with
    | some i => simp [jsSet, hi, isComposite]
    | none =>
      by_cases hql : q = "length"
      · subst hql; simp [jsSet, hi, isComposite]
      · simp [jsSet, hi, hql, isComposite]
  | undefV => simp [isComposite] at hc
  | null => simp [isComposite] at hc
  | boolV b => simp [isComposite] at hc
  | numV n => simp [isComposite] at hc
  | strV s => simp [isComposite] at hc

/-- A composite is never loosely null. -/
theorem looseNull_of_composite (o : JSVal) (hc : isComposite o = true) :
    looseNull o = false := by
  cases o <;> simp_all [isComposite, looseNull]

/-- Away from an array's length key the checked assignment is the raw one
and cannot throw. -/
theorem jsSetChecked_eq (o : JSVal) (q : String) (w : JSVal)
    (hl : isArrK o = true → q ≠ "length") :
    jsSetChecked o q w = some (jsSet o q w) := by
  cases o with
  | arrV es ps =>
    have hq : q ≠ "length" := hl rfl
    simp [jsSetChecked, hq]
  | undefV => rfl
  | null => rfl
  | boolV b => rfl
  | numV n => rfl
  | strV s => rfl
  | objV fs => rfl

/-- A setter TypeError carried out of the set helper is of setter kind,
and a throwing assignment is of range kind. -/
theorem updFin_snd_shape (lk : Option String) (v parent : JSVal) :
    (∀ e, (updFin lk v parent).2 = .sterr e → e.kind = .setterK) ∧
    (∀ e, (updFin lk v parent).2 = .sraise e → e.kind = .rangeK) := by
  unfold updFin setOp
  by_cases hg : (!looseNull parent && keyTruthy lk) = true
  · rw [if_pos hg]
    cases jsSetChecked parent (lk.getD "") v with
    | some p' =>
      constructor
      · intro e he
        cases he
      · intro e he
        cases he
    | none =>
      constructor
      · intro e he
        cases he
      · intro e he
        injection he with h'
        subst h'
        rfl
  · rw [if_neg hg]
    constructor
    · intro e he
      injection he with h'
      subst h'
      rfl
    · intro e he
      cases he

/-! ## Structural lemmas about the resolver walk -/

theorem isUndef_iff (v : JSVal) : isUndef v = true ↔ v = .undefV := by
  cases v <;> simp [isUndef]

theorem resolverGo_nil {β : Type} (obj : JSVal) (steps : Nat) (up : Bool)
    (fin : JSVal → JSVal × β) :
    resolverGo obj [] steps up fin = ((fin obj).1, .rdone (fin obj).2) := by
  cases steps <;> rfl

theorem resolverGo_zero {β : Type} (obj : JSVal) (rest : List String)
    (up : Bool) (fin : JSVal → JSVal × β) :
    resolverGo obj rest 0 up fin = ((fin obj).1, .rdone (fin obj).2) := by
  cases rest <;> rfl

theorem resolverGo_cons {β : Type} (obj : JSVal) (k : String)
    (rest' : List String) (s : Nat) (up : Bool) (fin : JSVal → JSVal × β)
    (hn : looseNull obj = false) :
    resolverGo obj (k :: rest') (s + 1) up fin =
      (let obj1 := if isUndef (jsGet obj k) && up then
          jsSet obj k (mkCont rest'.head?) else obj
       let child := jsGet obj1 k
       if isUndef child then (obj1, .rbrk)
       else
        (jsSet obj1 k (resolverGo child rest' s up fin).1,
         (resolverGo child rest' s up fin).2)) := by
  simp [resolverGo, hn]

/-- With upsert off and a bottom action that does not replace the target,
the walk leaves the root unchanged. -/
theorem resolverGo_fst_noUpsert {β : Type} (fin : JSVal → JSVal × β)
    (hfin : ∀ v, (fin v).1 = v) :
    ∀ (steps : Nat) (rest : List String) (obj : JSVal),
    (resolverGo obj rest steps false fin).1 = obj := by
  intro steps
  induction steps with
  | zero => intro rest obj; rw [resolverGo_zero, hfin]
  | succ s ih =>
    intro rest obj
    cases rest with
    | nil => rw [resolverGo_nil, hfin]
    | cons k rest' =>
      by_cases hn : looseNull obj = true
      · simp [resolverGo, hn]
      · have hn' : looseNull obj = false := by simpa using hn
        rw [resolverGo_cons obj k rest' s false fin hn']
        by_cases hu : isUndef (jsGet obj k) = true
        · simp [hu]
        · simp only [Bool.not_eq_true] at hu
          simp [hu, ih rest' (jsGet obj k), jsSet_jsGet_self obj k hu]

theorem isComposite_mkCont (x : Option String) :
    isComposite (mkCont x) = true := by
  cases h : segIsNaN x <;> simp [mkCont, h, isComposite]

theorem isUndef_mkCont (x : Option String) : isUndef (mkCont x) = false := by
  cases h : segIsNaN x <;> simp [mkCont, h, isUndef]

theorem jsGet_mkCont (x : Option String) (q : String) (hq : q ≠ "length") :
    jsGet (mkCont x) q = .undefV := by
  cases h : segIsNaN x with
  | true => simp [mkCont, h, jsGet, getF]
  | false =>
    cases hi : toIndex q with
    | some i => simp [mkCont, h, jsGet, hi, getIdx]
    | none => simp [mkCont, h, jsGet, hi, hq, getF]

theorem walkComposite_mkCont (x : Option String) (rest : List String)
    (hs : segsOk rest = true) : walkComposite (mkCont x) rest = true := by
  cases rest with
  | nil => rfl
  | cons r0 rt =>
    cases rt with
    | nil => simp [walkComposite, isComposite_mkCont]
    | cons r1 rr =>
      have hr0 : r0 ≠ "length" := by
        simp [segsOk, List.all] at hs
        exact hs.1.2
      simp [walkComposite, isComposite_mkCont,
        jsGet_mkCont x r0 hr0, isUndef]

theorem isUndef_of_composite (v : JSVal) (h : isComposite v = true) :
    isUndef v = false := by
  cases v <;> simp_all [isComposite, isUndef]

theorem findPath_nil (ctx : JSVal) : findPath ctx [] = .ok ctx := by
  rfl

theorem findPath_cons (ctx : JSVal) (k : String) (rest : List String)
    (hn : looseNull ctx = false) :
    findPath ctx (k :: rest) =
      if isUndef (jsGet ctx k) then .ok .undefV
      else findPath (jsGet ctx k) rest := by
  unfold findPath
  have hlen : (k :: rest).length = rest.length + 1 := rfl
  rw [hlen, resolverGo_cons ctx k rest rest.length false pureFin hn]
  by_cases hu : isUndef (jsGet ctx k) = true
  · simp [hu]
  · simp only [Bool.not_eq_true] at hu
    rcases hres : resolverGo (jsGet ctx k) rest rest.length false pureFin
      with ⟨r1, r2⟩
    simp only [hu, Bool.and_false, Bool.false_eq_true, if_false, hres]
    cases r2 <;> rfl

theorem updatePath_cons (ctx : JSVal) (k : String) (rest : List String)
    (v : JSVal) (up : Bool) (hrest : rest ≠ []) (hn : looseNull ctx = false) :
    updatePath ctx (k :: rest) v up =
      (let obj1 := if isUndef (jsGet ctx k) && up then
          jsSet ctx k (mkCont rest.head?) else ctx
       if isUndef (jsGet obj1 k) then
         .error ⟨.setterK, rest.get? (rest.length - 1), "undefined"⟩
       else
         match updatePath (jsGet obj1 k) rest v up with
         | .ok r => .ok (jsSet obj1 k r)
         | .error e => .error e) := by
  cases rest with
  | nil => exact absurd rfl hrest
  | cons r0 rt =>
    unfold updatePath
    have hlk : (k :: r0 :: rt).get? ((k :: r0 :: rt).length - 1) =
        (r0 :: rt).get? ((r0 :: rt).length - 1) := by
      simp [List.get?]
    have hsteps : (k :: r0 :: rt).length - 1 = rt.length + 1 := by simp
    rw [hlk, hsteps,
      resolverGo_cons ctx k (r0 :: rt) rt.length up
        (updFin ((r0 :: rt).get? ((r0 :: rt).length - 1)) v) hn]
    have hsteps' : (r0 :: rt).length - 1 = rt.length := by simp
    rw [hsteps']
    by_cases hu : isUndef (jsGet (if isUndef (jsGet ctx k) && up then
        jsSet ctx k (mkCont (r0 :: rt).head?) else ctx) k) = true
    · simp only [hu]
      simp
    · simp only [Bool.not_eq_true] at hu
      rcases hres : resolverGo
          (jsGet (if isUndef (jsGet ctx k) && up then
            jsSet ctx k (mkCont (r0 :: rt).head?) else ctx) k)
          (r0 :: rt) rt.length up
          (updFin ((r0 :: rt).get? rt.length) v)
        with ⟨r1, r2⟩
      simp only [hu, Bool.false_eq_true, if_false, hres]
      cases r2 with
      | rerr e => rfl
      | rbrk => rfl
      | rdone b => cases b <;> rfl

/-- Main roundtrip lemma: on a non-empty path whose pre-existing
traversed values are all composites (absent keys being created by
upsert), and whose segments are non-empty and avoid the array length key,
update succeeds with a composite root in which find retrieves exactly the
written value. -/
theorem updateFind_main : ∀ (path : List String) (ctx v : JSVal),
    path ≠ [] → segsOk path = true → walkComposite ctx path = true →
    ∃ r, updatePath ctx path v true = .ok r ∧ isComposite r = true ∧
      findPath r path = .ok v := by
  intro path
  induction path with
  | nil => intro ctx v h _ _; exact absurd rfl h
  | cons k rest ih =>
    intro ctx v _ hs hw
    have hsk : (k ≠ "" ∧ k ≠ "length") ∧ segsOk rest = true := by
      simpa [segsOk, List.all_cons, Bool.and_eq_true, decide_eq_true_eq]
        using hs
    cases rest with
    | nil =>
      have hcomp : isComposite ctx = true := by
        simpa [walkComposite] using hw
      have hn : looseNull ctx = false := looseNull_of_composite ctx hcomp
      have hupd : updatePath ctx [k] v true = .ok (jsSet ctx k v) := by
        unfold updatePath
        rw [show ([k].length - 1) = 0 from rfl, resolverGo_zero]
        have : updFin ([k].get? 0) v ctx =
            (jsSet ctx k v, .sval (jsSet ctx k v)) := by
          simp [updFin, setOp, keyTruthy, hn, hsk.1.1,
            jsSetChecked_eq ctx k v (fun _ => hsk.1.2)]
        rw [this]
      refine ⟨jsSet ctx k v, hupd, isComposite_jsSet ctx k v hcomp, ?_⟩
      have hcomp' := isComposite_jsSet ctx k v hcomp
      rw [findPath_cons (jsSet ctx k v) k []
        (looseNull_of_composite _ hcomp')]
      rw [jsGet_jsSet ctx k v hcomp (fun _ => hsk.1.2)]
      by_cases hv : isUndef v = true
      · rw [if_pos hv, (isUndef_iff v).mp hv]
      · rw [if_neg (by simp [hv]), findPath_nil]
    | cons r0 rt =>
      have hcomp : isComposite ctx = true := by
        have := hw
        simp only [walkComposite, Bool.and_eq_true] at this
        exact this.1
      have hn : looseNull ctx = false := looseNull_of_composite ctx hcomp
      rw [updatePath_cons ctx k (r0 :: rt) v true (by simp) hn]
      by_cases hu : isUndef (jsGet ctx k) = true
      · -- absent key: upsert creates a fresh container and descends into it
        have hobj1 : (if isUndef (jsGet ctx k) && true then
            jsSet ctx k (mkCont (r0 :: rt).head?) else ctx) =
            jsSet ctx k (mkCont (r0 :: rt).head?) := by
          simp [hu]
        have hchild : jsGet (jsSet ctx k (mkCont (r0 :: rt).head?)) k =
            mkCont (r0 :: rt).head? :=
          jsGet_jsSet ctx k _ hcomp (fun _ => hsk.1.2)
        have hwc : walkComposite (mkCont (r0 :: rt).head?) (r0 :: rt) = true :=
          walkComposite_mkCont _ _ hsk.2
        obtain ⟨r, hup, hrc, hfind⟩ :=
          ih (mkCont (r0 :: rt).head?) v (by simp) hsk.2 hwc
        have hobj1c : isComposite (jsSet ctx k (mkCont (r0 :: rt).head?)) = true :=
          isComposite_jsSet ctx k _ hcomp
        refine ⟨jsSet (jsSet ctx k (mkCont (r0 :: rt).head?)) k r, ?_, ?_, ?_⟩
        · simp only [hobj1, hchild, isUndef_mkCont, Bool.false_eq_true,
            if_false, hup]
        · exact isComposite_jsSet _ k r hobj1c
        · have houter : isComposite
              (jsSet (jsSet ctx k (mkCont (r0 :: rt).head?)) k r) = true :=
            isComposite_jsSet _ k r hobj1c
          rw [findPath_cons _ k (r0 :: rt) (looseNull_of_composite _ houter),
            jsGet_jsSet _ k r hobj1c (fun _ => hsk.1.2),
            if_neg (by simp [isUndef_of_composite r hrc])]
          exact hfind
      · -- key present: the walk descends into the existing composite child
        have hobj1 : (if isUndef (jsGet ctx k) && true then
            jsSet ctx k (mkCont (r0 :: rt).head?) else ctx) = ctx := by
          simp [hu]
        have hwc : walkComposite (jsGet ctx k) (r0 :: rt) = true := by
          have := hw
          simp only [walkComposite, Bool.and_eq_true] at this
          rcases this with ⟨_, h2⟩
          simpa [hu] using h2
        obtain ⟨r, hup, hrc, hfind⟩ := ih (jsGet ctx k) v (by simp) hsk.2 hwc
        refine ⟨jsSet ctx k r, ?_, isComposite_jsSet ctx k r hcomp, ?_⟩
        · simp only [hobj1, Bool.not_eq_true] at *
          simp only [hobj1, hu, Bool.false_eq_true, if_false, hup]
        · have houter : isComposite (jsSet ctx k r) = true :=
            isComposite_jsSet ctx k r hcomp
          rw [findPath_cons _ k (r0 :: rt) (looseNull_of_composite _ houter),
            jsGet_jsSet ctx k r hcomp (fun _ => hsk.1.2),
            if_neg (by simp [isUndef_of_composite r hrc])]
          exact hfind

/-! ## Error shape of the walk, and absent-target reads -/

theorem looseNull_iff (v : JSVal) :
    looseNull v = true ↔ v = .null ∨ v = .undefV := by
  cases v <;> simp [looseNull]

theorem resolverGo_cons_nullish {β : Type} (obj : JSVal) (k : String)
    (rest' : List String) (s : Nat) (up : Bool) (fin : JSVal → JSVal × β)
    (hn : looseNull obj = true) :
    resolverGo obj (k :: rest') (s + 1) up fin =
      (obj, .rerr ⟨.getterK, some k, errTypeName obj⟩) := by
  simp [resolverGo, hn]

/-- Every getter TypeError the walk produces cites a null or undefined
value (these are the only values the loose null != obj guard rejects). -/
theorem resolverGo_rerr_shape {β : Type} (fin : JSVal → JSVal × β) :
    ∀ (steps : Nat) (rest : List String) (obj o' : JSVal) (e : TErr)
      (up : Bool),
    resolverGo obj rest steps up fin = (o', .rerr e) →
    e.kind = .getterK ∧ (e.ty = "null" ∨ e.ty = "undefined") := by
  intro steps
  induction steps with
  | zero =>
    intro rest obj o' e up h
    rw [resolverGo_zero] at h
    injection h with h1 h2
    cases h2
  | succ s ih =>
    intro rest obj o' e up h
    cases rest with
    | nil =>
      rw [resolverGo_nil] at h
      injection h with h1 h2
      cases h2
    | cons k rest' =>
      by_cases hn : looseNull obj = true
      · rw [resolverGo_cons_nullish obj k rest' s up fin hn] at h
        injection h with h1 h2
        injection h2 with h3
        subst h3
        refine ⟨rfl, ?_⟩
        rcases (looseNull_iff obj).mp hn with h0 | h0 <;> subst h0
        · exact Or.inl rfl
        · exact Or.inr rfl
      · have hn' : looseNull obj = false := by simpa using hn
        rw [resolverGo_cons obj k rest' s up fin hn'] at h
        simp only at h
        by_cases hu : isUndef (jsGet (if isUndef (jsGet obj k) && up then
            jsSet obj k (mkCont rest'.head?) else obj) k) = true
        · rw [if_pos hu] at h
          injection h with h1 h2
          cases h2
        · rw [if_neg hu] at h
          rcases hres : resolverGo (jsGet (if isUndef (jsGet obj k) && up then
              jsSet obj k (mkCont rest'.head?) else obj) k) rest' s up fin
            with ⟨r1, r2⟩
          rw [hres] at h
          injection h with h1 h2
          subst h2
          exact ih rest' _ r1 e up hres

/-- Whatever holds of every bottom action's result holds of every
completed walk's result: the rdone payload is produced only by fin. -/
theorem resolverGo_rdone_shape {β : Type} (fin : JSVal → JSVal × β)
    (P : β → Prop) (hfin : ∀ o, P (fin o).2) :
    ∀ (steps : Nat) (rest : List String) (obj o' : JSVal) (b : β)
      (up : Bool),
    resolverGo obj rest steps up fin = (o', .rdone b) → P b := by
  intro steps
  induction steps with
  | zero =>
    intro rest obj o' b up h
    rw [resolverGo_zero] at h
    injection h with h1 h2
    injection h2 with h3
    subst h3
    exact hfin obj
  | succ s ih =>
    intro rest obj o' b up h
    cases rest with
    | nil =>
      rw [resolverGo_nil] at h
      injection h with h1 h2
      injection h2 with h3
      subst h3
      exact hfin obj
    | cons k rest' =>
      by_cases hn : looseNull obj = true
      · rw [resolverGo_cons_nullish obj k rest' s up fin hn] at h
        injection h with h1 h2
        cases h2
      · have hn' : looseNull obj = false := by simpa using hn
        rw [resolverGo_cons obj k rest' s up fin hn'] at h
        simp only at h
        by_cases hu : isUndef (jsGet (if isUndef (jsGet obj k) && up then
            jsSet obj k (mkCont rest'.head?) else obj) k) = true
        · rw [if_pos hu] at h
          injection h with h1 h2
          cases h2
        · rw [if_neg hu] at h
          rcases hres : resolverGo (jsGet (if isUndef (jsGet obj k) && up then
              jsSet obj k (mkCont rest'.head?) else obj) k) rest' s up fin
            with ⟨r1, r2⟩
          rw [hres] at h
          injection h with h1 h2
          subst h2
          exact ih rest' _ r1 b up hres


/-! ## JSON round trip identity on clean data -/

mutual

theorem jsonRT_id : ∀ (v : JSVal), jsonSafe v = true → jsonRT v = v
  | .undefV, h => by simp [jsonSafe] at h
  | .null, _ => rfl
  | .boolV _, _ => rfl
  | .numV _, _ => rfl
  | .strV _, _ => rfl
  | .arrV es ps, h => by
    cases ps with
    | fcons k w t => simp [jsonSafe] at h
    | fnil =>
      have h2 : jsonSafeL es = true := by simpa [jsonSafe] using h
      simp [jsonRT, jsonRTL_id es h2]
  | .objV fs, h => by
    simp [jsonRT, jsonRTF_id fs (by simpa [jsonSafe] using h)]

theorem jsonRTL_id : ∀ (es : JSList), jsonSafeL es = true → jsonRTL es = es
  | .nil, _ => rfl
  | .cons v t, h => by
    have h' : jsonSafe v = true ∧ jsonSafeL t = true := by
      simpa [jsonSafeL, Bool.and_eq_true] using h
    simp [jsonRTL, jsonRT_id v h'.1, jsonRTL_id t h'.2]

theorem jsonRTF_id : ∀ (fs : JSFields), jsonSafeF fs = true → jsonRTF fs = fs
  | .fnil, _ => rfl
  | .fcons k v t, h => by
    have h' : jsonSafe v = true ∧ jsonSafeF t = true := by
      simpa [jsonSafeF, Bool.and_eq_true] using h
    have hv : isUndef v = false := by
      cases v <;> simp_all [jsonSafe, isUndef]
    simp [jsonRTF, hv, jsonRT_id v h'.1, jsonRTF_id t h'.2]

end

/-! ## Lemmas about extend and mixin -/

theorem getF_extendF : ∀ (o2 o1 : JSFields) (q : String),
    nodupKeys o2 = true →
    getF (extendF o1 o2) q = (getF o2 q).or (getF o1 q)
  | .fnil, o1, q, _ => by simp [extendF, getF, Option.or]
  | .fcons k v t, o1, q, h => by
    have h' : (getF t k).isSome = false ∧ nodupKeys t = true := by
      simpa [nodupKeys, Bool.and_eq_true] using h
    rw [show extendF o1 (.fcons k v t) = extendF (setF o1 k v) t from rfl,
      getF_extendF t (setF o1 k v) q h'.2]
    by_cases hk : k = q
    · subst hk
      have ht : getF t k = none := by
        cases hg : getF t k with
        | none => rfl
        | some w => rw [hg] at h'; simp at h'
      simp [getF, ht, getF_setF, Option.or]
    · have hk' : (if k = q then some v else getF t q) = getF t q := by
        simp [hk]
      simp only [getF, hk']
      rw [getF_setF_ne o1 k q v hk]

theorem getF_foldl_extendF : ∀ (exs : List JSFields) (acc : JSFields)
    (q : String), (∀ ex ∈ exs, nodupKeys ex = true) →
    getF (exs.foldl extendF acc) q = (lookupExtras exs q).or (getF acc q)
  | [], acc, q, _ => by simp [lookupExtras, Option.or]
  | ex :: rest, acc, q, h => by
    have hex : nodupKeys ex = true := h ex (by simp)
    have hrest : ∀ e ∈ rest, nodupKeys e = true :=
      fun e he => h e (by simp [he])
    rw [show (ex :: rest).foldl extendF acc =
        rest.foldl extendF (extendF acc ex) from rfl,
      getF_foldl_extendF rest (extendF acc ex) q hrest,
      getF_extendF ex acc q hex, show lookupExtras (ex :: rest) q =
        (lookupExtras rest q).or (getF ex q) from rfl]
    cases lookupExtras rest q <;> cases getF ex q <;> simp [Option.or]

/-! ## Claim theorems -/

/-- C1, counterexample: on root (a : 5) the non-empty path a.b makes
update succeed silently (the sloppy-mode write to the primitive 5 is a
no-op), after which find returns undefined, not the written value 10 -- so
the claimed roundtrip law fails as stated. -/
theorem c1_counterexample :
    updateQ (.objV (jf [("a", .numV 5)])) "a.b" (.numV 10) =
      .ok (.objV (jf [("a", .numV 5)])) ∧
    findQ (.objV (jf [("a", .numV 5)])) "a.b" = .ok .undefV ∧
    (Except.ok JSVal.undefV : Except TErr JSVal) ≠ .ok (.numV 10) :=
  ⟨rfl, rfl, fun h => nomatch h⟩

/-- C1 (amended): update followed by find returns exactly the written
value on every non-empty path whose pre-existing traversed values are all
composites (absent keys are created by upsert), provided no segment is
empty or the array-special key length; an empty path always fails with the
NotAssignable setter TypeError instead of writing. -/
theorem c1_update_find_roundtrip (path : List String) (ctx v : JSVal) :
    (path ≠ [] → segsOk path = true → walkComposite ctx path = true →
      ∃ r, updatePath ctx path v true = .ok r ∧ findPath r path = .ok v) ∧
    updatePath ctx [] v true = .error ⟨.setterK, none, errTypeName ctx⟩ := by
  constructor
  · intro h1 h2 h3
    obtain ⟨r, hu, _, hf⟩ := updateFind_main path ctx v h1 h2 h3
    exact ⟨r, hu, hf⟩
  · unfold updatePath
    rw [show (([] : List String).length - 1) = 0 from rfl, resolverGo_zero]
    have h : updFin (([] : List String).get? 0) v ctx =
        (ctx, .sterr ⟨.setterK, none, errTypeName ctx⟩) := by
      simp [updFin, setOp, keyTruthy]
    rw [h]

/-- Witness for C1: the roundtrip at the concrete upsert-created path
b.c.0 of the test suite. -/
theorem c1_update_find_roundtrip_witness :
    ∃ r, updatePath (.objV (jf [("a", .numV 5)])) ["b", "c", "0"]
        (.numV 10) true = .ok r ∧
      findPath r ["b", "c", "0"] = .ok (.numV 10) :=
  (c1_update_find_roundtrip ["b", "c", "0"] (.objV (jf [("a", .numV 5)]))
    (.numV 10)).1 (by simp) (by rfl) (by rfl)

/-- C4, counterexample: assigning an invalid array length -- root
(a : [1, 2]), path a.length, value an empty object -- makes the final
assignment throw RangeError inside the deferred next-tick callback: the
user callback is never invoked and the failure is not delivered as its
first argument, refuting the claimed propagation policy for the
callback case. -/
theorem c4_counterexample :
    updateCbOutcome (.objV (jf [("a", .arrV (jl [.numV 1, .numV 2]) .fnil)]))
        ["a", "length"] (.objV .fnil) true =
      .uncaught ⟨.rangeK, some "length", "Invalid array length"⟩ ∧
    (CbOut.uncaught ⟨.rangeK, some "length", "Invalid array length"⟩ ≠
      .called (some (errToString
        ⟨.rangeK, some "length", "Invalid array length"⟩)) (.boolV false)) ∧
    updatePath (.objV (jf [("a", .arrV (jl [.numV 1, .numV 2]) .fnil)]))
        ["a", "length"] (.objV .fnil) true =
      .error ⟨.rangeK, some "length", "Invalid array length"⟩ := by
  refine ⟨rfl, ?_, rfl⟩
  intro h
  cases h

/-- C4 (amended): error propagation policy.  For find, a failure is
delivered as the callback's first argument (as String(err)), never
thrown on the callback path, and thrown synchronously without a
callback.  For update, the sync variant's successes and failures
correspond to the deferred outcome as follows: a success is delivered as
(null, mutated root); a getter or setter TypeError (every error kind
except the RangeError) is delivered as the callback's first argument, as
String(err); but when the final assignment itself throws -- an invalid
array-length assignment, the RangeError kind -- the sync variant raises
it synchronously while the callback variant throws it inside the
deferred tick and never invokes the callback at all. -/
theorem c4_error_propagation (ctx : JSVal) (path : List String) (v : JSVal)
    (up : Bool) :
    ((findCbArgs ctx path).1 = none ↔ ∃ r, findPath ctx path = .ok r) ∧
    (∀ e, findPath ctx path = .error e →
      findCbArgs ctx path = (some (errToString e), .boolV false)) ∧
    (∀ r, updatePath ctx path v up = .ok r →
      updateCbOutcome ctx path v up = .called none r) ∧
    (∀ e, updatePath ctx path v up = .error e → e.kind ≠ .rangeK →
      updateCbOutcome ctx path v up =
        .called (some (errToString e)) (.boolV false)) ∧
    (∀ e, updatePath ctx path v up = .error e → e.kind = .rangeK →
      updateCbOutcome ctx path v up = .uncaught e) := by
  refine ⟨?_, ?_, ?_, ?_, ?_⟩
  · unfold findCbArgs findPath
    rcases resolverGo ctx path path.length false pureFin with ⟨r1, r2⟩
    cases r2 <;> simp
  · intro e h
    unfold findPath at h
    unfold findCbArgs
    rcases hres : resolverGo ctx path path.length false pureFin with ⟨r1, r2⟩
    rw [hres] at h
    cases r2 with
    | rerr e' => injection h with h'; subst h'; rfl
    | rbrk => cases h
    | rdone b => cases h
  · intro r h
    unfold updatePath at h
    unfold updateCbOutcome
    rcases hres : resolverGo ctx path (path.length - 1) up
        (updFin (path.get? (path.length - 1)) v) with ⟨r1, r2⟩
    rw [hres] at h
    cases r2 with
    | rerr e' => cases h
    | rbrk => cases h
    | rdone b =>
      cases b with
      | sval p => injection h with h'; subst h'; rfl
      | sterr e' => cases h
      | sraise e' => cases h
  · intro e h hk
    unfold updatePath at h
    unfold updateCbOutcome
    rcases hres : resolverGo ctx path (path.length - 1) up
        (updFin (path.get? (path.length - 1)) v) with ⟨r1, r2⟩
    rw [hres] at h
    cases r2 with
    | rerr e' => injection h with h'; subst h'; rfl
    | rbrk => injection h with h'; subst h'; rfl
    | rdone b =>
      cases b with
      | sval p => cases h
      | sterr e' => injection h with h'; subst h'; rfl
      | sraise e' =>
        injection h with h'
        have hkr : e'.kind = .rangeK :=
          (resolverGo_rdone_shape (updFin (path.get? (path.length - 1)) v)
            (fun b => (∀ x, b = .sterr x → x.kind = .setterK) ∧
              (∀ x, b = .sraise x → x.kind = .rangeK))
            (fun o => updFin_snd_shape (path.get? (path.length - 1)) v o)
            (path.length - 1) path ctx r1 _ up hres).2 e' rfl
        rw [h'] at hkr
        exact absurd hkr hk
  · intro e h hk
    unfold updatePath at h
    unfold updateCbOutcome
    rcases hres : resolverGo ctx path (path.length - 1) up
        (updFin (path.get? (path.length - 1)) v) with ⟨r1, r2⟩
    rw [hres] at h
    cases r2 with
    | rerr e' =>
      injection h with h'
      have hksh : e'.kind = .getterK :=
        (resolverGo_rerr_shape (updFin (path.get? (path.length - 1)) v)
          (path.length - 1) path ctx r1 e' up hres).1
      rw [h'] at hksh
      rw [hk] at hksh
      cases hksh
    | rbrk =>
      injection h with h'
      subst h'
      cases hk
    | rdone b =>
      cases b with
      | sval p => cases h
      | sterr e' =>
        injection h with h'
        have hksh : e'.kind = .setterK :=
          (resolverGo_rdone_shape (updFin (path.get? (path.length - 1)) v)
            (fun b => (∀ x, b = .sterr x → x.kind = .setterK) ∧
              (∀ x, b = .sraise x → x.kind = .rangeK))
            (fun o => updFin_snd_shape (path.get? (path.length - 1)) v o)
            (path.length - 1) path ctx r1 _ up hres).1 e' rfl
        rw [h'] at hksh
        rw [hk] at hksh
        cases hksh
      | sraise e' => injection h with h'; subst h'; rfl

/-- Witness for C4: the getter failure of root (a : null), path a.b.c is
delivered through the update callback's first argument as String(err). -/
theorem c4_error_propagation_witness :
    updateCbOutcome (.objV (jf [("a", .null)])) ["a", "b", "c"]
        (.numV 10) true =
      .called (some "TypeError: Cannot read property 'b' of null")
        (.boolV false) :=
  (c4_error_propagation (.objV (jf [("a", .null)])) ["a", "b", "c"]
    (.numV 10) true).2.2.2.1 ⟨.getterK, some "b", "null"⟩ (by rfl)
    (fun h => nomatch h)

/-- C5: a read whose walk passes only through existing composites until a
key is absent succeeds with the undefined value and reports no error. -/
theorem c5_absent_read (ctx : JSVal) (path : List String)
    (h : stopsAbsent ctx path = true) : findPath ctx path = .ok .undefV := by
  induction path generalizing ctx with
  | nil => simp [stopsAbsent] at h
  | cons k rest ih =>
    have h' : isComposite ctx = true ∧
        (if isUndef (jsGet ctx k) then true
         else stopsAbsent (jsGet ctx k) rest) = true := by
      simpa [stopsAbsent, Bool.and_eq_true] using h
    rw [findPath_cons ctx k rest (looseNull_of_composite ctx h'.1)]
    by_cases hu : isUndef (jsGet ctx k) = true
    · rw [if_pos hu]
    · rw [if_neg hu]
      have hrec : stopsAbsent (jsGet ctx k) rest = true := by
        have := h'.2
        rwa [if_neg hu] at this
      exact ih (jsGet ctx k) hrec

/-- Witness for C5: the test's spec example, root (a : (b : (c : [10])))
and path b.c. -/
theorem c5_absent_read_witness :
    findQ (.objV (jf [("a", .objV (jf [("b",
      .objV (jf [("c", .arrV (jl [.numV 10]) .fnil)]))]))])) "b.c" =
      .ok .undefV :=
  c5_absent_read (.objV (jf [("a", .objV (jf [("b",
    .objV (jf [("c", .arrV (jl [.numV 10]) .fnil)]))]))])) ["b", "c"]
    (by rfl)

/-- C6, counterexample: for update of path a with a callback on an empty
root, at the moment the call returns the root is still empty -- the final
assignment happens only inside the deferred callback -- refuting the claim
that the root already reflects the write when the operation returns. -/
theorem c6_counterexample :
    updateCbPhase1 (.objV .fnil) ["a"] true = .objV .fnil ∧
    updatePath (.objV .fnil) ["a"] (.numV 10) true =
      .ok (.objV (jf [("a", .numV 10)])) ∧
    (JSVal.objV .fnil) ≠ .objV (jf [("a", .numV 10)]) :=
  ⟨rfl, rfl, fun h => nomatch h⟩

/-- C6 (amended): the traversal -- including upsert creation of missing
intermediate containers -- runs synchronously before update returns (the
at-return root of update a.b on an empty root already holds the fresh
container at a), but the final assignment runs inside the deferred
callback: only the deferred outcome carries the written value, and the
at-return root differs from it. -/
theorem c6_deferred_write :
    updateCbPhase1 (.objV .fnil) ["a", "b"] true =
      .objV (jf [("a", .objV .fnil)]) ∧
    updatePath (.objV .fnil) ["a", "b"] (.numV 10) true =
      .ok (.objV (jf [("a", .objV (jf [("b", .numV 10)]))])) ∧
    updateCbOutcome (.objV .fnil) ["a", "b"] (.numV 10) true =
      .called none (.objV (jf [("a", .objV (jf [("b", .numV 10)]))])) ∧
    updateCbPhase1 (.objV .fnil) ["a", "b"] true ≠
      .objV (jf [("a", .objV (jf [("b", .numV 10)]))]) :=
  ⟨rfl, rfl, rfl, fun h => nomatch h⟩

/-- C7: find never mutates the root context, for every root and every
path, although it runs the upsert-capable shared walk (it passes upsert
off, and no branch of the walk then writes). -/
theorem c7_find_no_mutation (ctx : JSVal) (path : List String) :
    findRoot ctx path = ctx :=
  resolverGo_fst_noUpsert pureFin (fun _ => rfl) path.length path ctx

/-- C8, counterexample: copy of a path resolving to null (a
non-composite) returns null, not the claimed failure value false, because
typeof null is "object" and null survives the JSON round trip. -/
theorem c8_counterexample :
    copyQ (.objV (jf [("a", .null)])) "a" = .ok .null ∧
    (Except.ok JSVal.null : Except TErr JSVal) ≠ .ok (.boolV false) :=
  ⟨rfl, fun h => nomatch h⟩

/-- C8 (amended): copy of a path resolving to a composite returns its
JSON round trip -- equal to the original whenever the data is JSON-clean
(and an independent value by construction in this by-value model); copy of
a non-composite other than null returns false; copy of null returns null
(typeof null is "object"). -/
theorem c8_copy_clone (ctx : JSVal) (path : List String) (r : JSVal)
    (h : findPath ctx path = .ok r) :
    (isComposite r = true → jsonSafe r = true →
      copyPath ctx path = .ok r) ∧
    (isComposite r = false → r ≠ .null →
      copyPath ctx path = .ok (.boolV false)) ∧
    (r = .null → copyPath ctx path = .ok .null) := by
  unfold copyPath
  rw [h]
  refine ⟨?_, ?_, ?_⟩
  · intro hc hs
    have hty : jsTypeName r = "object" := by
      cases r <;> simp_all [isComposite, jsTypeName]
    simp [Except.map, hty, jsonRT_id r hs]
  · intro hc hn
    have hty : jsTypeName r ≠ "object" := by
      cases r with
      | undefV => exact (show ("undefined" : String) ≠ "object" by decide)
      | null => exact absurd rfl hn
      | boolV b => exact (show ("boolean" : String) ≠ "object" by decide)
      | numV n => exact (show ("number" : String) ≠ "object" by decide)
      | strV s => exact (show ("string" : String) ≠ "object" by decide)
      | arrV es ps => simp [isComposite] at hc
      | objV fs => simp [isComposite] at hc
    simp [Except.map, hty]
  · intro hn
    subst hn
    simp [Except.map, jsTypeName, jsonRT]

/-- Witness for C8: copy of a composite target returns it unchanged. -/
theorem c8_copy_clone_witness :
    copyPath (.objV (jf [("a", .objV (jf [("x", .numV 1)]))])) ["a"] =
      .ok (.objV (jf [("x", .numV 1)])) :=
  (c8_copy_clone (.objV (jf [("a", .objV (jf [("x", .numV 1)]))])) ["a"]
    (.objV (jf [("x", .numV 1)])) (by rfl)).1 (by rfl) (by rfl)

/-- C9: mixin of a path resolving to an object over extra plain objects
produces a fresh object (built starting from an empty literal, so the
inputs are never written to in this by-value model) whose value at every
key is the resolved object's own value when present, and otherwise the
value of the rightmost extra carrying the key (later extras override
earlier ones, the resolved object overrides them all). -/
theorem c9_mixin_merge (ctx : JSVal) (path : List String)
    (extras : List JSFields) (fs : JSFields)
    (hf : findPath ctx path = .ok (.objV fs))
    (hnf : nodupKeys fs = true)
    (hne : ∀ ex ∈ extras, nodupKeys ex = true) :
    mixinPath ctx path extras =
      .ok (extendF (extras.foldl extendF .fnil) fs) ∧
    ∀ q, getF (extendF (extras.foldl extendF .fnil) fs) q =
      (getF fs q).or (lookupExtras extras q) := by
  constructor
  · unfold mixinPath
    rw [hf]
    rfl
  · intro q
    rw [getF_extendF fs (extras.foldl extendF .fnil) q hnf,
      getF_foldl_extendF extras .fnil q hne,
      show getF .fnil q = none from rfl]
    cases getF fs q <;> cases lookupExtras extras q <;> simp [Option.or]

/-- Witness for C9: two extras and a resolved object with one overlapping
key each way. -/
theorem c9_mixin_merge_witness :
    mixinPath (.objV (jf [("a", .objV (jf [("x", .numV 1)]))])) ["a"]
        [jf [("x", .numV 9), ("y", .numV 2)],
         jf [("y", .numV 3), ("z", .numV 4)]] =
      .ok (jf [("x", .numV 1), ("y", .numV 3), ("z", .numV 4)]) ∧
    ∀ q, getF (jf [("x", .numV 1), ("y", .numV 3), ("z", .numV 4)]) q =
      (getF (jf [("x", .numV 1)]) q).or
        (lookupExtras [jf [("x", .numV 9), ("y", .numV 2)],
          jf [("y", .numV 3), ("z", .numV 4)]] q) :=
  c9_mixin_merge (.objV (jf [("a", .objV (jf [("x", .numV 1)]))])) ["a"]
    [jf [("x", .numV 9), ("y", .numV 2)], jf [("y", .numV 3), ("z", .numV 4)]]
    (jf [("x", .numV 1)]) (by rfl) (by rfl)
    (by intro ex hex
        simp only [List.mem_cons, List.not_mem_nil, or_false] at hex
        rcases hex with rfl | rfl <;> rfl)

/-- C10: a constructor call without a root (or with a string first
argument, shifted into the delimiter slot) and a rebind with a falsy or
absent root both bind a fresh empty mapping as the context, never the
falsy value itself. -/
theorem c10_falsy_root (c : JSVal) (h : jsTruthy c = false) :
    ctorCtx (some c) = .objV .fnil ∧ rebindCtx (some c) = .objV .fnil ∧
    ctorCtx none = .objV .fnil ∧ rebindCtx none = .objV .fnil := by
  refine ⟨?_, by simp [rebindCtx, h], rfl, rfl⟩
  have hu : ctorCtx (some c) = if jsTypeName c = "string" then .objV .fnil
      else if jsTruthy c = true then c else .objV .fnil := rfl
  rw [hu]
  by_cases hs : jsTypeName c = "string"
  · rw [if_pos hs]
  · rw [if_neg hs, if_neg (by simp [h])]

/-- Witness for C10: the falsy root null binds an empty mapping in both
construction and rebinding. -/
theorem c10_falsy_root_witness :
    ctorCtx (some .null) = .objV .fnil ∧
    rebindCtx (some .null) = .objV .fnil ∧
    ctorCtx none = .objV .fnil ∧ rebindCtx none = .objV .fnil :=
  c10_falsy_root .null (by rfl)
